import Mathlib

/-!
Verification of the `@tendermint/sig` Cosmos signing library
(`src/index.ts`), shallowly embedded in Lean 4.

External collaborators (secp256k1 sign/verify, SHA-256, RIPEMD-160,
bech32 encoding, base64 codec) are abstracted as fields of a `Prims`
bundle; the repository's own logic is translated function by function.
The canonical JSON serializer (`toCanonicalJSONBytes`, from the
library's `util` module, not present in `src/`) is modelled from the
spec's canonicalization rules.
-/

namespace CosmosSig

/-- Raw byte strings are modelled as lists of naturals. -/
abbrev Bytes := List Nat

/-- JSON-representable values, the domain of the canonicalizer.
Objects are association lists of string keys to values. -/
inductive JValue where
  | null : JValue
  | bool (b : Bool) : JValue
  | num (n : Int) : JValue
  | str (s : String) : JValue
  | arr (xs : List JValue) : JValue
  | obj (fs : List (String × JValue)) : JValue

/-- Modelled from the spec: strings use a single fixed textual
representation — JSON quoting with backslash escapes for quote and
backslash characters. -/
def escapeChar (c : Char) : String :=
  if c = '\\' then "\\\\"
  else if c = '\"' then "\\\""
  else String.singleton c

/-- Quote a string for canonical JSON output. -/
def quoteStr (s : String) : String :=
  "\"" ++ String.join (s.toList.map escapeChar) ++ "\""

/-- Modelled from the spec: object keys are sorted lexicographically
(byte-wise) at every nesting level before serialization. -/
def sortPairs (fs : List (String × JValue)) : List (String × JValue) :=
  fs.mergeSort (fun p q => decide (p.1 ≤ q.1))

mutual
/-- Recursively sort all object key lists of a JSON value; arrays
preserve element order. -/
def sortValue : JValue → JValue
  | .null => .null
  | .bool b => .bool b
  | .num n => .num n
  | .str s => .str s
  | .arr xs => .arr (sortArr xs)
  | .obj fs => .obj (sortPairs (sortObjFields fs))

/-- Sort each element of an array, preserving order. -/
def sortArr : List JValue → List JValue
  | [] => []
  | x :: xs => sortValue x :: sortArr xs

/-- Sort the value of each field, preserving the field list. -/
def sortObjFields : List (String × JValue) → List (String × JValue)
  | [] => []
  | (k, v) :: fs => (k, sortValue v) :: sortObjFields fs
end

mutual
/-- Modelled from the spec: serialize a (key-sorted) JSON value with
no insignificant whitespace and fixed number/string representations. -/
def serializeJ : JValue → String
  | .null => "null"
  | .bool b => if b then "true" else "false"
  | .num n => toString n
  | .str s => quoteStr s
  | .arr xs => "[" ++ serializeArr xs ++ "]"
  | .obj fs => "\x7b" ++ serializeFields fs ++ "\x7d"

/-- Serialize array elements, comma separated, in order. -/
def serializeArr : List JValue → String
  | [] => ""
  | [x] => serializeJ x
  | x :: y :: xs => serializeJ x ++ "," ++ serializeArr (y :: xs)

/-- Serialize object fields, comma separated, in list order. -/
def serializeFields : List (String × JValue) → String
  | [] => ""
  | [(k, v)] => quoteStr k ++ ":" ++ serializeJ v
  | (k, v) :: f :: fs => quoteStr k ++ ":" ++ serializeJ v ++ "," ++ serializeFields (f :: fs)
end

/-- Modelled from the spec: `toCanonicalJSONBytes` from the library's
`util` module — sort object keys at every nesting level, serialize with
no whitespace, return the bytes of the resulting text. -/
def toCanonicalJSONBytes (v : JValue) : Bytes :=
  (serializeJ (sortValue v)).toList.map Char.toNat

/-- External primitives consumed by the library (`secp256k1`,
`create-hash`, `bech32` encoding and the base64 codec from the missing
`util` module), bundled abstractly. -/
structure Prims where
  sha256 : Bytes → Bytes
  ripemd160 : Bytes → Bytes
  secpSign : Bytes → Bytes → Bytes
  secpVerify : Bytes → Bytes → Bytes → Bool
  publicKeyCreate : Bytes → Bytes
  bytesToBase64 : Bytes → String
  base64ToBytes : String → Bytes
  bech32Encode : String → List Nat → String

/-- `KeyPair` from `types`: private and public key bytes. -/
structure KeyPair where
  privateKey : Bytes
  publicKey : Bytes

/-- `SignMeta` from `types`: caller-supplied signing context. -/
structure SignMeta where
  account_number : String
  chain_id : String
  sequence : String

/-- `Tx` from `types`: an unsigned transaction. Message and fee
payloads are opaque JSON values; `extra` models any further sibling
fields carried by the transaction object. -/
structure Tx where
  msg : List JValue
  fee : JValue
  memo : String
  extra : List (String × JValue)

/-- `PubKey` member of `StdSignature`: type tag and base64 key. -/
structure PubKeyJson where
  type : String
  value : String

/-- `StdSignature` from `types`: base64 signature plus embedded
public key. -/
structure StdSignature where
  signature : String
  pub_key : PubKeyJson

/-- `StdTx` from `types`: a transaction plus its signature list. -/
structure StdTx extends Tx where
  signatures : List StdSignature

/-- `StdSignMsg` from `types`: the fixed six-field sign message. -/
structure StdSignMsg where
  account_number : String
  chain_id : String
  fee : JValue
  memo : String
  msgs : List JValue
  sequence : String

/-- `BroadcastTx` from `types`: a signed transaction to broadcast,
with the broadcast mode carried through uninterpreted. -/
structure BroadcastTx where
  tx : StdTx
  mode : String

/-- The JSON value of a sign message, as serialized for signing. -/
def StdSignMsg.toJson (m : StdSignMsg) : JValue :=
  .obj [("account_number", .str m.account_number),
        ("chain_id", .str m.chain_id),
        ("fee", m.fee),
        ("memo", .str m.memo),
        ("msgs", .arr m.msgs),
        ("sequence", .str m.sequence)]

/-- A hierarchical-deterministic node returned by `derivePath`; the
private key may be absent (public-only derivation). -/
structure DerivedNode where
  privateKey : Option Bytes

/-- The opaque BIP32 master key handle consumed by the library. -/
structure MasterKey where
  derivePath : String → DerivedNode

/-- `BROADCAST_MODE_SYNC` from `index.ts`. -/
def BROADCAST_MODE_SYNC : String := "sync"

/-- `BROADCAST_MODE_ASYNC` from `index.ts`. -/
def BROADCAST_MODE_ASYNC : String := "async"

/-- `BROADCAST_MODE_BLOCK` from `index.ts`. -/
def BROADCAST_MODE_BLOCK : String := "block"

/-- `createKeyPairFromMasterKey` from `index.ts`: derive a node at
`path`, fail if it has no private key, else pair the private key with
its compressed public key. -/
def createKeyPairFromMasterKey (P : Prims) (masterKey : MasterKey) (path : String) :
    Except String KeyPair :=
  match (masterKey.derivePath path).privateKey with
  | none => .error "could not derive private key"
  | some privateKey => .ok { privateKey := privateKey, publicKey := P.publicKeyCreate privateKey }

/-- The eight bits of a byte, most significant first. -/
def byteToBits (b : Nat) : List Bool :=
  [b / 128 % 2 == 1, b / 64 % 2 == 1, b / 32 % 2 == 1, b / 16 % 2 == 1,
   b / 8 % 2 == 1, b / 4 % 2 == 1, b / 2 % 2 == 1, b % 2 == 1]

/-- The natural number denoted by a bit string, most significant
bit first. -/
def bitsToNat : List Bool → Nat
  | [] => 0
  | b :: bs => (if b then 2 ^ bs.length else 0) + bitsToNat bs

/-- Split a bit string into groups of five bits, zero-padding the
final group. -/
def chunk5 (l : List Bool) : List (List Bool) :=
  if h : l = [] then []
  else (l.take 5 ++ List.replicate (5 - l.length) false) :: chunk5 (l.drop 5)
termination_by l.length
decreasing_by
  have : l.length ≠ 0 := fun hz => h (List.eq_nil_of_length_eq_zero hz)
  simp only [List.length_drop]
  omega

/-- Modelled from the spec: the external `bech32.toWords` primitive —
regroup the bytes' bits into 5-bit words, padding the final word with
zero bits. -/
def toWords (bs : Bytes) : List Nat :=
  (chunk5 (bs.flatMap byteToBits)).map bitsToNat

/-- `createAddress` from `index.ts`: hash the public key with SHA-256
then RIPEMD-160, group the digest into 5-bit words and bech32-encode
with the human readable part. -/
def createAddress (P : Prims) (publicKey : Bytes) (hrp : String := "cosmos") : String :=
  P.bech32Encode hrp (toWords (P.ripemd160 (P.sha256 publicKey)))

/-- `createSignMsg` from `index.ts`: combine a transaction and signing
metadata into the fixed six-field sign message. -/
def createSignMsg (tx : Tx) (meta : SignMeta) : StdSignMsg :=
  { account_number := meta.account_number,
    chain_id := meta.chain_id,
    fee := tx.fee,
    memo := tx.memo,
    msgs := tx.msg,
    sequence := meta.sequence }

/-- `sign` from `index.ts`: SHA-256 the bytes and sign the hash with
the secp256k1 private key. -/
def sign (P : Prims) (bytes : Bytes) (privateKey : Bytes) : Bytes :=
  P.secpSign (P.sha256 bytes) privateKey

/-- `createSignatureBytes` from `index.ts`: canonicalize the sign
message and sign the resulting bytes. -/
def createSignatureBytes (P : Prims) (signMsg : StdSignMsg) (privateKey : Bytes) : Bytes :=
  sign P (toCanonicalJSONBytes signMsg.toJson) privateKey

/-- `createSignature` from `index.ts`: wrap the raw signature bytes
and the signer's public key, both base64-encoded, with the fixed
public-key type tag. -/
def createSignature (P : Prims) (signMsg : StdSignMsg) (keyPair : KeyPair) : StdSignature :=
  { signature := P.bytesToBase64 (createSignatureBytes P signMsg keyPair.privateKey),
    pub_key := { type := "tendermint/PubKeySecp256k1",
                 value := P.bytesToBase64 keyPair.publicKey } }

/-- The transaction fields of a `Tx | StdTx` union value. -/
def txOf : Tx ⊕ StdTx → Tx
  | .inl tx => tx
  | .inr stx => stx.toTx

/-- `signTx` from `index.ts`: build the sign message, create the
signature, and append it to the existing signature list if the input
already has one (`'signatures' in tx`), else start a fresh list; all
other transaction fields are spread through unchanged. -/
def signTx (P : Prims) (tx : Tx ⊕ StdTx) (meta : SignMeta) (keyPair : KeyPair) : StdTx :=
  let signMsg := createSignMsg (txOf tx) meta
  let signature := createSignature P signMsg keyPair
  let signatures := match tx with
    | .inl _ => [signature]
    | .inr stx => stx.signatures ++ [signature]
  { toTx := txOf tx, signatures := signatures }

/-- `verifySignatureBytes` from `index.ts`: canonicalize the sign
message, SHA-256 it, and verify signature bytes against the digest and
public key. -/
def verifySignatureBytes (P : Prims) (signMsg : StdSignMsg) (signature : Bytes)
    (publicKey : Bytes) : Bool :=
  P.secpVerify (P.sha256 (toCanonicalJSONBytes signMsg.toJson)) signature publicKey

/-- `verifySignature` from `index.ts`: decode the base64 signature and
embedded public key and check them against the sign message. -/
def verifySignature (P : Prims) (signMsg : StdSignMsg) (signature : StdSignature) : Bool :=
  verifySignatureBytes P signMsg (P.base64ToBytes signature.signature)
    (P.base64ToBytes signature.pub_key.value)

/-- `verifySignatures` from `index.ts`: all signatures must verify and
an empty list is rejected. -/
def verifySignatures (P : Prims) (signMsg : StdSignMsg) (signatures : List StdSignature) : Bool :=
  if signatures.length > 0 then
    signatures.all (fun signature => verifySignature P signMsg signature)
  else
    false

/-- `verifyTx` from `index.ts`: rebuild the sign message from the
transaction and metadata and verify every attached signature. -/
def verifyTx (P : Prims) (tx : StdTx) (meta : SignMeta) : Bool :=
  verifySignatures P (createSignMsg tx.toTx meta) tx.signatures

/-- `createBroadcastTx` from `index.ts`: package a signed transaction
and broadcast mode, the mode defaulting to `sync`. -/
def createBroadcastTx (tx : StdTx) (mode : String := BROADCAST_MODE_SYNC) : BroadcastTx :=
  { tx := tx, mode := mode }

mutual
/-- Two JSON values that are structurally equal except that objects
may list their (distinct) keys in a different insertion order. -/
inductive CanonEquiv : JValue → JValue → Prop where
  | null : CanonEquiv .null .null
  | bool (b : Bool) : CanonEquiv (.bool b) (.bool b)
  | num (n : Int) : CanonEquiv (.num n) (.num n)
  | str (s : String) : CanonEquiv (.str s) (.str s)
  | arr {xs ys : List JValue} : CanonEquivList xs ys → CanonEquiv (.arr xs) (.arr ys)
  | obj {fs gs gs2 : List (String × JValue)} : CanonEquivFields fs gs → gs.Perm gs2 →
      (fs.map Prod.fst).Nodup → CanonEquiv (.obj fs) (.obj gs2)

/-- Element-wise `CanonEquiv` on arrays, preserving order. -/
inductive CanonEquivList : List JValue → List JValue → Prop where
  | nil : CanonEquivList [] []
  | cons {x y : JValue} {xs ys : List JValue} : CanonEquiv x y → CanonEquivList xs ys →
      CanonEquivList (x :: xs) (y :: ys)

/-- Field-wise `CanonEquiv` on object field lists: same keys in the
same positions, values related. -/
inductive CanonEquivFields : List (String × JValue) → List (String × JValue) → Prop where
  | nil : CanonEquivFields [] []
  | cons {k : String} {v w : JValue} {fs gs : List (String × JValue)} : CanonEquiv v w →
      CanonEquivFields fs gs → CanonEquivFields ((k, v) :: fs) ((k, w) :: gs)
end

/-- Unary rendering of a byte list as text, used to give the toy
primitive bundle an invertible base64 stand-in. -/
def unaryEnc : List Nat → List Char
  | [] => []
  | n :: rest => List.replicate n 'a' ++ 'b' :: unaryEnc rest

/-- Inverse of `unaryEnc`. -/
def unaryDec : List Char → List Nat
  | [] => []
  | c :: cs =>
      if c = 'b' then 0 :: unaryDec cs
      else
        match unaryDec cs with
        | [] => []
        | n :: rest => (n + 1) :: rest

/-- A concrete, fully executable primitive bundle satisfying the
round-trip laws assumed of the external collaborators. -/
def toyPrims : Prims :=
  { sha256 := fun bs => 0 :: bs,
    ripemd160 := fun _ => List.replicate 20 7,
    secpSign := fun digest priv => digest ++ priv,
    secpVerify := fun digest sg pub => decide (sg = digest ++ pub),
    publicKeyCreate := fun priv => priv,
    bytesToBase64 := fun bs => String.mk (unaryEnc bs),
    base64ToBytes := fun s => unaryDec s.toList,
    bech32Encode := fun hrp _ => hrp ++ "1qqqq" }

/-- Concrete transaction input used by witnesses. -/
def wTx : Tx :=
  { msg := [.obj [("type", .str "cosmos-sdk/MsgSend"), ("value", .null)]],
    fee := .obj [("amount", .arr []), ("gas", .str "200000")],
    memo := "",
    extra := [] }

/-- Concrete signing metadata used by witnesses. -/
def wMeta : SignMeta :=
  { account_number := "0", chain_id := "test-chain", sequence := "0" }

/-- Concrete key pair for the toy primitives (public = compressed
image of private under the toy `publicKeyCreate`). -/
def wKeyPair : KeyPair := { privateKey := [1, 2], publicKey := [1, 2] }

/-- Concrete signed transaction used by witnesses. -/
def wStdTxA : StdTx :=
  { toTx := wTx, signatures := [] }

/-- A second signed transaction: same `msg`, `fee` and `memo` as
`wStdTxA` but different signatures and extra sibling fields. -/
def wStdTxB : StdTx :=
  { msg := wTx.msg, fee := wTx.fee, memo := wTx.memo,
    extra := [("note", .str "sibling")],
    signatures := [{ signature := "bb", pub_key := { type := "t", value := "b" } }] }

/-- A concrete master key whose derivation always yields a private
key. -/
def wMaster : MasterKey :=
  { derivePath := fun _ => { privateKey := some [1, 2, 3] } }

/-- A JSON object with keys in one insertion order. -/
def wJsonA : JValue :=
  .obj [("gas", .str "200000"), ("amount", .arr [.num 1, .num 2])]

/-- The same JSON object with keys in the other insertion order. -/
def wJsonB : JValue :=
  .obj [("amount", .arr [.num 1, .num 2]), ("gas", .str "200000")]

/-! ## Helper lemmas -/

theorem unaryDec_enc_cons (rest : List Nat) (h : unaryDec (unaryEnc rest) = rest) :
    ∀ n : Nat, unaryDec (unaryEnc (n :: rest)) = n :: rest := by
  intro n
  induction n with
  | zero => simp [unaryEnc, unaryDec, h]
  | succ m ihm =>
      have he : unaryEnc ((m + 1) :: rest) = 'a' :: unaryEnc (m :: rest) := by
        simp [unaryEnc, List.replicate_succ]
      rw [he, unaryDec, if_neg (by decide), ihm]

/-- The toy base64 stand-in round-trips. -/
theorem unaryDec_enc (bs : List Nat) : unaryDec (unaryEnc bs) = bs := by
  induction bs with
  | nil => rfl
  | cons n rest ih => exact unaryDec_enc_cons rest ih n

theorem length_flatMap_byteToBits (bs : Bytes) :
    (bs.flatMap byteToBits).length = 8 * bs.length := by
  induction bs with
  | nil => rfl
  | cons b rest ih => simp [List.flatMap_cons, byteToBits, ih]; omega

theorem chunk5_length_of_mul (k : Nat) :
    ∀ l : List Bool, l.length = 5 * k → (chunk5 l).length = k := by
  induction k with
  | zero =>
      intro l hl
      have hnil : l = [] := List.eq_nil_of_length_eq_zero (by omega)
      rw [hnil, chunk5]
      simp
  | succ m ih =>
      intro l hl
      have hne : l ≠ [] := by
        intro he
        rw [he] at hl
        simp at hl
      rw [chunk5, dif_neg hne]
      have hdrop : (l.drop 5).length = 5 * m := by
        simp [List.length_drop]
        omega
      simp [ih (l.drop 5) hdrop]

theorem chunk5_mem_length (l : List Bool) : ∀ c ∈ chunk5 l, c.length = 5 := by
  induction l using chunk5.induct with
  | case1 => intro c hc; rw [chunk5] at hc; simp at hc
  | case2 l hne ih =>
      intro c hc
      rw [chunk5, dif_neg hne] at hc
      rcases List.mem_cons.mp hc with hc | hc
      · subst hc
        simp [List.length_take, List.length_replicate]
        have : l.length ≠ 0 := fun hz => hne (List.eq_nil_of_length_eq_zero hz)
        omega
      · exact ih c hc

theorem bitsToNat_lt (l : List Bool) : bitsToNat l < 2 ^ l.length := by
  induction l with
  | nil => simp [bitsToNat]
  | cons b bs ih =>
      simp only [bitsToNat, List.length_cons, pow_succ]
      have h2 : 0 < 2 ^ bs.length := Nat.pos_pow_of_pos _ (by omega)
      cases b <;> simp <;> omega

theorem toWords_word_lt (bs : Bytes) : ∀ w ∈ toWords bs, w < 32 := by
  intro w hw
  rcases List.mem_map.mp hw with ⟨c, hc, hcw⟩
  have hlen : c.length = 5 := chunk5_mem_length _ c hc
  have := bitsToNat_lt c
  rw [hlen] at this
  omega

theorem toWords_length_of_20 (bs : Bytes) (h : bs.length = 20) :
    (toWords bs).length = 32 := by
  unfold toWords
  rw [List.length_map]
  apply chunk5_length_of_mul
  rw [length_flatMap_byteToBits, h]

theorem sortObjFields_eq_map : ∀ fs : List (String × JValue),
    sortObjFields fs = fs.map (fun p => (p.1, sortValue p.2))
  | [] => rfl
  | (k, v) :: fs => by rw [sortObjFields, sortObjFields_eq_map fs, List.map_cons]

theorem sortArr_eq_map : ∀ xs : List JValue, sortArr xs = xs.map sortValue
  | [] => rfl
  | x :: xs => by rw [sortArr, sortArr_eq_map xs, List.map_cons]

/-- Sorting object fields by key yields the same list for any two
permutations of a field list with distinct keys. -/
theorem sortPairs_eq_of_perm {l1 l2 : List (String × JValue)} (hp : l1.Perm l2)
    (hnd : (l1.map Prod.fst).Nodup) : sortPairs l1 = sortPairs l2 := by
  have htrans : ∀ a b c : String × JValue,
      decide (a.1 ≤ b.1) = true → decide (b.1 ≤ c.1) = true → decide (a.1 ≤ c.1) = true := by
    intro a b c hab hbc
    simp only [decide_eq_true_eq] at *
    exact le_trans hab hbc
  have htotal : ∀ a b : String × JValue,
      (decide (a.1 ≤ b.1) || decide (b.1 ≤ a.1)) = true := by
    intro a b
    simpa using le_total a.1 b.1
  have hperm1 : (sortPairs l1).Perm l1 := List.mergeSort_perm l1 _
  have hperm2 : (sortPairs l2).Perm l2 := List.mergeSort_perm l2 _
  have hperm : (sortPairs l1).Perm (sortPairs l2) := (hperm1.trans hp).trans hperm2.symm
  have hstrict : ∀ m : List (String × JValue), (sortPairs m).Perm m →
      (m.map Prod.fst).Nodup → (sortPairs m).Pairwise (fun p q => p.1 < q.1) := by
    intro m hpm hndm
    have hle : (sortPairs m).Pairwise (fun p q => decide (p.1 ≤ q.1) = true) :=
      List.sorted_mergeSort htrans htotal m
    have hndm' : ((sortPairs m).map Prod.fst).Nodup := (hpm.map Prod.fst).nodup_iff.mpr hndm
    have hne : (sortPairs m).Pairwise (fun p q => p.1 ≠ q.1) := by
      have := List.pairwise_map.mp hndm'
      exact this
    refine (hle.and hne).imp ?_
    intro a b hab
    have h1 : a.1 ≤ b.1 := by
      have := hab.1
      simpa using this
    exact lt_of_le_of_ne h1 hab.2
  have hs1 := hstrict l1 hperm1 hnd
  have hs2 := hstrict l2 hperm2 ((hp.map Prod.fst).nodup_iff.mp hnd)
  haveI : IsAntisymm (String × JValue) (fun p q => p.1 < q.1) :=
    ⟨fun a b h1 h2 => absurd (lt_trans h1 h2) (lt_irrefl _)⟩
  exact List.eq_of_perm_of_sorted hperm hs1 hs2

mutual
theorem sortValue_eq_of_equiv : ∀ {a b : JValue}, CanonEquiv a b → sortValue a = sortValue b
  | _, _, .null => rfl
  | _, _, .bool _ => rfl
  | _, _, .num _ => rfl
  | _, _, .str _ => rfl
  | _, _, .arr h => by
      rw [sortValue, sortValue, sortArr_eq_of_equiv h]
  | _, _, @CanonEquiv.obj fs gs gs2 hf hp hnd => by
      rw [sortValue, sortValue]
      have h1 : sortObjFields fs = sortObjFields gs := sortObjFields_eq_of_equiv hf
      have hpm : (sortObjFields gs).Perm (sortObjFields gs2) := by
        rw [sortObjFields_eq_map, sortObjFields_eq_map]
        exact hp.map _
      have hperm : (sortObjFields fs).Perm (sortObjFields gs2) := h1 ▸ hpm
      have hkeys : (sortObjFields fs).map Prod.fst = fs.map Prod.fst := by
        rw [sortObjFields_eq_map, List.map_map]
        rfl
      have hnd' : ((sortObjFields fs).map Prod.fst).Nodup := by
        rw [hkeys]
        exact hnd
      rw [sortPairs_eq_of_perm hperm hnd']

theorem sortArr_eq_of_equiv : ∀ {xs ys : List JValue},
    CanonEquivList xs ys → sortArr xs = sortArr ys
  | _, _, .nil => rfl
  | _, _, .cons hv hs => by
      rw [sortArr, sortArr, sortValue_eq_of_equiv hv, sortArr_eq_of_equiv hs]

theorem sortObjFields_eq_of_equiv : ∀ {fs gs : List (String × JValue)},
    CanonEquivFields fs gs → sortObjFields fs = sortObjFields gs
  | _, _, .nil => rfl
  | _, _, .cons hv hfs => by
      rw [sortObjFields, sortObjFields, sortValue_eq_of_equiv hv, sortObjFields_eq_of_equiv hfs]
end

/-! ## Claim theorems -/

/-- C4: `createSignMsg` builds exactly the six-field record —
`account_number`, `chain_id` and `sequence` from the metadata, `fee`,
`memo` and `msgs` (in order) from the transaction. -/
theorem createSignMsg_builds_fixed_fields (tx : Tx) (meta : SignMeta) :
    createSignMsg tx meta
      = { account_number := meta.account_number,
          chain_id := meta.chain_id,
          fee := tx.fee,
          memo := tx.memo,
          msgs := tx.msg,
          sequence := meta.sequence } := rfl

/-- C3: `signTx` appends exactly one new signature to the input's
existing signature list (empty for an unsigned input), leaving prior
entries and all non-signature transaction fields unchanged. -/
theorem signTx_appends_one_signature (P : Prims) (input : Tx ⊕ StdTx) (meta : SignMeta)
    (keyPair : KeyPair) :
    (signTx P input meta keyPair).signatures
        = (match input with | .inl _ => [] | .inr stx => stx.signatures)
          ++ [createSignature P (createSignMsg (txOf input) meta) keyPair]
    ∧ (signTx P input meta keyPair).toTx = txOf input := by
  cases input <;> simp [signTx]

/-- C8: the signature appended by the signer has exactly the shape
`\x7b signature: base64(raw bytes), pub_key: \x7b type:
"tendermint/PubKeySecp256k1", value: base64(public key) \x7d \x7d`. -/
theorem signTx_signature_shape (P : Prims) (input : Tx ⊕ StdTx) (meta : SignMeta)
    (keyPair : KeyPair) :
    (signTx P input meta keyPair).signatures.getLast?
      = some { signature :=
                 P.bytesToBase64
                   (createSignatureBytes P (createSignMsg (txOf input) meta) keyPair.privateKey),
               pub_key := { type := "tendermint/PubKeySecp256k1",
                            value := P.bytesToBase64 keyPair.publicKey } } := by
  cases input <;> simp [signTx, createSignature]

/-- C10: `createBroadcastTx` returns exactly the pair of the unchanged
transaction and the uninterpreted mode string, defaulting to "sync"
when the mode is omitted. -/
theorem createBroadcastTx_packages_unchanged (tx : StdTx) (mode : String) :
    createBroadcastTx tx mode = { tx := tx, mode := mode }
    ∧ createBroadcastTx tx = { tx := tx, mode := "sync" } :=
  ⟨rfl, rfl⟩

/-- C2: `verifyTx` returns `true` iff the signature list is non-empty
and every entry verifies, under its own embedded public key, against
the SHA-256 digest of the canonical bytes of the rebuilt sign
message. -/
theorem verifyTx_all_signatures (P : Prims) (tx : StdTx) (meta : SignMeta) :
    verifyTx P tx meta = true
      ↔ tx.signatures ≠ []
        ∧ ∀ s ∈ tx.signatures,
            P.secpVerify
                (P.sha256 (toCanonicalJSONBytes (createSignMsg tx.toTx meta).toJson))
                (P.base64ToBytes s.signature) (P.base64ToBytes s.pub_key.value)
              = true := by
  by_cases hnil : tx.signatures = []
  · simp [verifyTx, verifySignatures, hnil]
  · have hlen : tx.signatures.length > 0 := List.length_pos.mpr hnil
    simp [verifyTx, verifySignatures, hlen, hnil, verifySignature, verifySignatureBytes,
      List.all_eq_true]

/-- Witness for C2 at a concrete transaction with an empty signature
list, which therefore fails verification. -/
theorem verifyTx_all_signatures_witness :
    verifyTx toyPrims wStdTxA wMeta = false := by
  have h := verifyTx_all_signatures toyPrims wStdTxA wMeta
  cases hb : verifyTx toyPrims wStdTxA wMeta with
  | false => rfl
  | true => exact absurd rfl (h.mp hb).1

/-- C9: the sign message (and hence the signing digest) depends only
on the transaction's `msg`, `fee` and `memo`: transactions agreeing on
those three fields yield identical sign messages and identical
digests, whatever their signatures or extra sibling fields. -/
theorem createSignMsg_ignores_signatures (tx1 tx2 : StdTx) (meta : SignMeta)
    (hmsg : tx1.msg = tx2.msg) (hfee : tx1.fee = tx2.fee) (hmemo : tx1.memo = tx2.memo) :
    createSignMsg tx1.toTx meta = createSignMsg tx2.toTx meta
    ∧ ∀ P : Prims,
        P.sha256 (toCanonicalJSONBytes (createSignMsg tx1.toTx meta).toJson)
          = P.sha256 (toCanonicalJSONBytes (createSignMsg tx2.toTx meta).toJson) := by
  have h : createSignMsg tx1.toTx meta = createSignMsg tx2.toTx meta := by
    simp [createSignMsg, hmsg, hfee, hmemo]
  exact ⟨h, fun P => by rw [h]⟩

/-- Witness for C9 at concrete transactions differing in signatures
and extra sibling fields. -/
theorem createSignMsg_ignores_signatures_witness :
    createSignMsg wStdTxA.toTx wMeta = createSignMsg wStdTxB.toTx wMeta :=
  (createSignMsg_ignores_signatures wStdTxA wStdTxB wMeta rfl rfl rfl).1

/-- C6: key derivation fails exactly when the path yields no private
key, and on success returns the derived private key paired with its
compressed public key. -/
theorem createKeyPairFromMasterKey_cases (P : Prims) (masterKey : MasterKey) (path : String) :
    ((∃ e, createKeyPairFromMasterKey P masterKey path = .error e)
        ↔ (masterKey.derivePath path).privateKey = none)
    ∧ ∀ priv, (masterKey.derivePath path).privateKey = some priv →
        createKeyPairFromMasterKey P masterKey path
          = .ok { privateKey := priv, publicKey := P.publicKeyCreate priv } := by
  unfold createKeyPairFromMasterKey
  cases h : (masterKey.derivePath path).privateKey with
  | none => simp
  | some priv => simp

/-- Witness for C6 at a concrete master key that yields a private
key. -/
theorem createKeyPairFromMasterKey_witness :
    createKeyPairFromMasterKey toyPrims wMaster "m/0"
      = .ok { privateKey := [1, 2, 3], publicKey := [1, 2, 3] } :=
  (createKeyPairFromMasterKey_cases toyPrims wMaster "m/0").2 [1, 2, 3] rfl

/-- C1: signing an unsigned transaction then verifying with the same
metadata succeeds, provided the external primitives satisfy the usual
laws — base64 decoding inverts encoding and secp256k1 verification
accepts a signature made by the matching private key — and the key
pair's public key is the compressed image of its private key. -/
theorem signTx_verifyTx_roundTrip (P : Prims) (tx : Tx) (meta : SignMeta) (keyPair : KeyPair)
    (hb64 : ∀ bs, P.base64ToBytes (P.bytesToBase64 bs) = bs)
    (hverify : ∀ digest priv,
        P.secpVerify digest (P.secpSign digest priv) (P.publicKeyCreate priv) = true)
    (hkey : keyPair.publicKey = P.publicKeyCreate keyPair.privateKey) :
    verifyTx P (signTx P (.inl tx) meta keyPair) meta = true := by
  simp [verifyTx, signTx, verifySignatures, verifySignature, verifySignatureBytes,
    createSignature, createSignatureBytes, sign, txOf, hb64, hkey, hverify]

/-- Witness for C1 with the toy primitives at a concrete transaction,
metadata and key pair. -/
theorem signTx_verifyTx_roundTrip_witness :
    verifyTx toyPrims (signTx toyPrims (.inl wTx) wMeta wKeyPair) wMeta = true :=
  signTx_verifyTx_roundTrip toyPrims wTx wMeta wKeyPair
    (fun bs => by simpa [toyPrims] using unaryDec_enc bs)
    (fun digest priv => by simp [toyPrims])
    rfl

/-- C7: `createAddress` bech32-encodes, under the given human
readable prefix (default "cosmos"), the 5-bit word grouping of the
20-byte digest `ripemd160(sha256(publicKey))`; the grouping of a
20-byte digest is 32 words, each a 5-bit value. The operation is a
total function, hence deterministic with no failure path. -/
theorem createAddress_bech32_of_hash160 (P : Prims) (publicKey : Bytes) (hrp : String)
    (h20 : (P.ripemd160 (P.sha256 publicKey)).length = 20) :
    createAddress P publicKey hrp
        = P.bech32Encode hrp (toWords (P.ripemd160 (P.sha256 publicKey)))
    ∧ (toWords (P.ripemd160 (P.sha256 publicKey))).length = 32
    ∧ (∀ w ∈ toWords (P.ripemd160 (P.sha256 publicKey)), w < 32)
    ∧ createAddress P publicKey = createAddress P publicKey "cosmos" :=
  ⟨rfl, toWords_length_of_20 _ h20, toWords_word_lt _, rfl⟩

/-- Witness for C7 with the toy primitives (whose `ripemd160` returns
a 20-byte digest) at a concrete 33-byte public key. -/
theorem createAddress_bech32_of_hash160_witness :
    createAddress toyPrims (List.replicate 33 2) "cosmos"
        = toyPrims.bech32Encode "cosmos"
            (toWords (toyPrims.ripemd160 (toyPrims.sha256 (List.replicate 33 2))))
    ∧ (toWords (toyPrims.ripemd160 (toyPrims.sha256 (List.replicate 33 2)))).length = 32 :=
  ⟨(createAddress_bech32_of_hash160 toyPrims (List.replicate 33 2) "cosmos" (by rfl)).1,
   (createAddress_bech32_of_hash160 toyPrims (List.replicate 33 2) "cosmos" (by rfl)).2.1⟩

/-- C5: canonicalization is deterministic and order-independent:
JSON values that differ only in object key insertion order (with
distinct keys) canonicalize to the same bytes; keys are emitted sorted
lexicographically at every nesting level, and arrays preserve element
order. -/
theorem toCanonicalJSONBytes_order_independent :
    (∀ a b : JValue, CanonEquiv a b → toCanonicalJSONBytes a = toCanonicalJSONBytes b)
    ∧ (∀ fs : List (String × JValue),
        (sortPairs fs).Pairwise (fun p q => p.1 ≤ q.1))
    ∧ (∀ xs : List JValue, sortValue (.arr xs) = .arr (xs.map sortValue)) := by
  refine ⟨?_, ?_, ?_⟩
  · intro a b h
    unfold toCanonicalJSONBytes
    rw [sortValue_eq_of_equiv h]
  · intro fs
    have htrans : ∀ a b c : String × JValue,
        decide (a.1 ≤ b.1) = true → decide (b.1 ≤ c.1) = true → decide (a.1 ≤ c.1) = true := by
      intro a b c hab hbc
      simp only [decide_eq_true_eq] at *
      exact le_trans hab hbc
    have htotal : ∀ a b : String × JValue,
        (decide (a.1 ≤ b.1) || decide (b.1 ≤ a.1)) = true := by
      intro a b
      simpa using le_total a.1 b.1
    have hle : (sortPairs fs).Pairwise (fun p q => decide (p.1 ≤ q.1) = true) :=
      List.sorted_mergeSort htrans htotal fs
    refine hle.imp ?_
    intro a b hab
    simpa using hab
  · intro xs
    rw [sortValue, sortArr_eq_map]

/-- Witness for C5 at a concrete pair of objects with the same fields
in opposite insertion orders. -/
theorem toCanonicalJSONBytes_order_independent_witness :
    toCanonicalJSONBytes wJsonA = toCanonicalJSONBytes wJsonB :=
  toCanonicalJSONBytes_order_independent.1 wJsonA wJsonB
    (CanonEquiv.obj
      (CanonEquivFields.cons (CanonEquiv.str "200000")
        (CanonEquivFields.cons
          (CanonEquiv.arr (CanonEquivList.cons (CanonEquiv.num 1)
            (CanonEquivList.cons (CanonEquiv.num 2) CanonEquivList.nil)))
          CanonEquivFields.nil))
      (List.Perm.swap ("amount", JValue.arr [JValue.num 1, JValue.num 2])
        ("gas", JValue.str "200000") [])
      (by simp))

end CosmosSig
